import Mathlib

/-!
Shallow embedding of `src/solution/src/hooks/useAsyncValidation.ts` and the
parts of `src/solution/src/components/Form.tsx` that the verified properties
concern.

The hook `useAsyncStringValidation` keeps three pieces of React state
(`value`, `result`, `pending`).  A `useEffect` with dependency array
`[value, validateAsync]` starts a validation cycle: it sets `pending := true`,
awaits `validateAsync value`, and on settlement commits `result` (the resolved
`ValidationResult`, or `EXCEPTION_VALIDATION_RESULT` on rejection) and
`pending := false` — every commit guarded by the effect run's own `isMounted`
flag, which the effect's cleanup sets to `false`.  React runs the cleanup of
the previous effect both when the dependencies change (a new value supersedes
the old cycle) and at unmount, and re-runs the effect only when a dependency
actually changed under `Object.is` comparison; setting the state to an
identical string does not re-fire the effect and hence starts no new cycle.

We model this as a single-threaded transition system (promise continuations
run as atomic microtasks between synchronous phases):

* each started cycle gets a fresh id (`nextId` counts cycles ever started);
* `active` holds the id of the one cycle whose `isMounted` flag is still
  `true` — the latest started cycle while mounted, `none` after unmount;
* `outstanding` holds the cycles whose promise has not settled yet;
* events are `setValue` (covers both `initValue` and `handleChange`, which
  both just call the React state setter), `settle id o` (the promise of cycle
  `id` resolves or rejects with outcome `o`; the `try`/`catch`/`finally`
  continuation runs atomically), and `unmount`.

`validateAsync` is assumed referentially stable across renders, as in
`Form.tsx` where the module-level constant `isNameValidWrapper` is passed.

For `Form.tsx` we embed the state the verified properties read and write
(`nameValidation` hook state, `location`, `items`) and the handlers
`handleLocationSelect`, `handleClearClick`, `handleAddClick` together with the
`canAdd` guard.  The location-options fetching (`getLocations`) and the
rendering layer touch neither `items` nor the `canAdd` inputs and are out of
scope of the properties below.
-/

namespace AsyncValidation

/-- `ValidationResult` from useAsyncValidation.ts: `{ isValid, message }`. -/
structure ValidationResult where
  isValid : Bool
  message : String
deriving DecidableEq, Repr

/-- `INITIAL_VALIDATION_RESULT` from useAsyncValidation.ts. -/
def INITIAL_VALIDATION_RESULT : ValidationResult :=
  { isValid := true, message := "" }

/-- `EXCEPTION_VALIDATION_RESULT` from useAsyncValidation.ts. -/
def EXCEPTION_VALIDATION_RESULT : ValidationResult :=
  { isValid := false
    message := "An error occurred while validating. Try again later." }

/-- How one invocation of the validation function settles: it either resolves
with a `ValidationResult` or rejects with some error value (modelled as an
opaque string payload, never inspected by the hook). -/
inductive Outcome where
  | resolve (r : ValidationResult)
  | reject (err : String)
deriving DecidableEq, Repr

/-- External events acting on the hook state: the two mutators (both reduce to
the React state setter `setValue`), the settlement of an outstanding cycle's
promise, and unmount (which runs the current effect's cleanup). -/
inductive Event where
  | setValue (v : String)
  | settle (id : Nat) (o : Outcome)
  | unmount
deriving DecidableEq, Repr

/-- The hook's state together with the bookkeeping of in-flight cycles. -/
structure HookState where
  value : String
  result : ValidationResult
  pending : Bool
  /-- number of validation cycles ever started; also the next fresh id -/
  nextId : Nat
  /-- id of the cycle whose closure-captured `isMounted` flag is still true -/
  active : Option Nat
  /-- cycles started whose promise has not settled, with the value passed to
  `validateAsync` when the cycle started -/
  outstanding : List (Nat × String)
  mounted : Bool
deriving DecidableEq, Repr

/-- State produced by the `useState` initializers
(`useState(initialValue)`, `useState(INITIAL_VALIDATION_RESULT)`,
`useState(false)`), before the mount effect runs. -/
def initState (initialValue : String) : HookState :=
  { value := initialValue
    result := INITIAL_VALIDATION_RESULT
    pending := false
    nextId := 0
    active := none
    outstanding := []
    mounted := true }

/-- One run of the effect body: cleanup of the previous run has already set
its `isMounted` flag to false (the new cycle replaces `active`), then
`validate()` runs synchronously up to the `await`: `setPending(true)` and the
invocation of `validateAsync` on the current value. -/
def startCycle (s : HookState) : HookState :=
  { s with
    pending := true
    active := some s.nextId
    outstanding := s.outstanding ++ [(s.nextId, s.value)]
    nextId := s.nextId + 1 }

/-- State right after mount: the `useState` initializers followed by the first
run of the effect. -/
def mountState (initialValue : String) : HookState :=
  startCycle (initState initialValue)

/-- Ids of the outstanding (started, unsettled) cycles. -/
def outIds (s : HookState) : List Nat :=
  s.outstanding.map Prod.fst

/-- Whether the cycle whose `isMounted` flag is still true is itself still
outstanding (started and unsettled). -/
def activeOutstanding (s : HookState) : Bool :=
  match s.active with
  | some i => decide (i ∈ outIds s)
  | none => false

/-- The transition function.

* `setValue v`: the React state setter.  After unmount it is a no-op.  If `v`
  equals the current value, React bails out and the effect (deps
  `[value, validateAsync]`) does not re-run — no new cycle.  Otherwise the
  re-render runs the previous effect's cleanup (its `isMounted := false`,
  i.e. `active` is overwritten) and starts a new cycle on the new value.
* `settle id o`: the promise of cycle `id` settles.  The continuation
  (`try`/`catch`/`finally`) runs atomically; every state write is guarded by
  the cycle's own `isMounted` flag, i.e. happens only if `active = some id`:
  on resolution `setResult validationResult`, on rejection
  `setResult EXCEPTION_VALIDATION_RESULT`, and in both cases
  `setPending false`.
* `unmount`: the effect cleanup runs (`isMounted := false` for the current
  cycle) and no further setter has any effect. -/
def step (s : HookState) : Event → HookState
  | .setValue v =>
    if s.mounted then
      if v = s.value then s
      else startCycle { s with value := v }
    else s
  | .settle id o =>
    if id ∈ outIds s then
      let s1 := { s with outstanding := s.outstanding.filter (fun p => p.1 != id) }
      if s.active = some id then
        match o with
        | .resolve r => { s1 with result := r, pending := false }
        | .reject _ => { s1 with result := EXCEPTION_VALIDATION_RESULT, pending := false }
      else s1
    else s
  | .unmount => { s with mounted := false, active := none }

/-- Run a list of events from a state. -/
def run (s : HookState) (es : List Event) : HookState :=
  es.foldl step s

/-- A row of the table in Form.tsx (`DataItem`). -/
structure DataItem where
  name : String
  location : String
deriving DecidableEq, Repr

/-- The state of the `Form` component that the properties below concern: the
name field's hook state (`useAsyncStringValidation("", isNameValidWrapper)`),
the selected `location`, and the `items` table. -/
structure FormState where
  nameValidation : HookState
  location : String
  items : List DataItem
deriving DecidableEq, Repr

/-- `Form` state at mount: the hook mounted on `""`, empty location selection,
empty table. -/
def initFormState : FormState :=
  { nameValidation := mountState ""
    location := ""
    items := [] }

/-- `canAdd` from Form.tsx:
`nameValidation.isValid && nameValidation.value.length > 0 && location.length > 0`
(the hook spreads `result`, so `nameValidation.isValid` is
`result.isValid`). -/
def canAdd (s : FormState) : Bool :=
  s.nameValidation.result.isValid
    && decide (s.nameValidation.value.length > 0)
    && decide (s.location.length > 0)

/-- `handleLocationSelect` from Form.tsx: `setLocation(data.optionValue ?? "")`. -/
def handleLocationSelect (s : FormState) (optionValue : Option String) : FormState :=
  { s with location := optionValue.getD "" }

/-- `handleClearClick` from Form.tsx: `nameValidation.initValue("")` (the
hook's state setter) and `setLocation("")`. -/
def handleClearClick (s : FormState) : FormState :=
  { s with
    nameValidation := step s.nameValidation (Event.setValue "")
    location := "" }

/-- `handleAddClick` from Form.tsx: when `canAdd`, append
`{ name: nameValidation.value, location }` to `items` and then clear the
inputs via `handleClearClick`; otherwise do nothing. -/
def handleAddClick (s : FormState) : FormState :=
  if canAdd s then
    handleClearClick
      { s with items := s.items ++ [{ name := s.nameValidation.value, location := s.location }] }
  else s

/-- External events acting on the `Form` component. -/
inductive FormEvent where
  | nameEvent (e : Event)
  | locationSelect (optionValue : Option String)
  | clearClick
  | addClick
deriving DecidableEq, Repr

/-- The `Form` transition function. -/
def formStep (s : FormState) : FormEvent → FormState
  | .nameEvent e => { s with nameValidation := step s.nameValidation e }
  | .locationSelect ov => handleLocationSelect s ov
  | .clearClick => handleClearClick s
  | .addClick => handleAddClick s

/-- Run a list of `Form` events from a state. -/
def formRun (s : FormState) (es : List FormEvent) : FormState :=
  es.foldl formStep s

/-- Well-formedness of reachable hook states: outstanding ids are below
`nextId` and distinct, the cycle with a live `isMounted` flag is always the
most recently started one, unmounting kills that flag, and — while mounted —
`pending` holds exactly while the live cycle is still outstanding. -/
def Inv (s : HookState) : Prop :=
  (∀ p ∈ s.outstanding, p.1 < s.nextId) ∧
  (outIds s).Nodup ∧
  (∀ i, s.active = some i → i + 1 = s.nextId) ∧
  (s.mounted = false → s.active = none) ∧
  (s.mounted = true → s.pending = activeOutstanding s)

lemma inv_initState (v : String) : Inv (initState v) := by
  refine ⟨?_, ?_, ?_, ?_, ?_⟩ <;>
    simp [initState, outIds, activeOutstanding, INITIAL_VALIDATION_RESULT]

lemma inv_startCycle (s : HookState) (h : Inv s) (hm : s.mounted = true) :
    Inv (startCycle s) := by
  obtain ⟨hb, hn, ha, hu, hp⟩ := h
  refine ⟨?_, ?_, ?_, ?_, ?_⟩
  · intro p hp'
    simp only [startCycle, List.mem_append, List.mem_singleton] at hp'
    rcases hp' with hp' | hp'
    · exact Nat.lt_succ_of_lt (hb p hp')
    · simp [hp', startCycle]
  · simp only [startCycle, outIds, List.map_append, List.map_cons, List.map_nil]
    rw [List.nodup_append]
    refine ⟨hn, List.nodup_singleton _, ?_⟩
    intro i hi
    simp only [List.mem_singleton]
    intro hc
    exact absurd (hb _ (List.mem_map.mp hi).choose_spec.1) (by
      have := (List.mem_map.mp hi).choose_spec.2
      omega)
  · intro i hi
    simp only [startCycle, Option.some.injEq] at hi
    simp [startCycle, ← hi]
  · intro hf
    simp only [startCycle] at hf
    rw [hm] at hf; exact absurd hf (by simp)
  · intro _
    simp [startCycle, activeOutstanding, outIds]

lemma inv_mountState (v : String) : Inv (mountState v) :=
  inv_startCycle _ (inv_initState v) rfl

lemma outIds_filter_ne (s : HookState) (id : Nat) :
    (s.outstanding.filter (fun p => p.1 != id)).map Prod.fst
      = (outIds s).filter (fun i => i != id) := by
  rw [outIds]
  induction s.outstanding with
  | nil => rfl
  | cons p l ih => by_cases h : (p.1 != id) = true <;> simp [List.filter_cons, h, ih]

lemma inv_step (s : HookState) (e : Event) (h : Inv s) : Inv (step s e) := by
  obtain ⟨hb, hn, ha, hu, hp⟩ := h
  cases e with
  | setValue v =>
    by_cases hm : s.mounted
    · by_cases hv : v = s.value
      · simpa [step, hm, hv] using ⟨hb, hn, ha, hu, hp⟩
      · have : step s (Event.setValue v) = startCycle { s with value := v } := by
          simp [step, hm, hv]
        rw [this]
        exact inv_startCycle _ ⟨hb, hn, ha, hu, hp⟩ (by simpa using hm)
    · have hm' : s.mounted = false := by simpa using hm
      simpa [step, hm'] using ⟨hb, hn, ha, hu, hp⟩
  | unmount =>
    refine ⟨?_, ?_, ?_, ?_, ?_⟩
    · simpa [step] using hb
    · simpa [step, outIds] using hn
    · simp [step]
    · simp [step]
    · simp [step]
  | settle id o =>
    by_cases hmem : id ∈ outIds s
    · by_cases hact : s.active = some id
      · -- the settling cycle is the active one: commit + pending := false
        have hstep : ∀ s', step s (Event.settle id o) = s' →
            s'.outstanding = s.outstanding.filter (fun p => p.1 != id) ∧
            s'.nextId = s.nextId ∧ s'.active = s.active ∧ s'.mounted = s.mounted ∧
            s'.pending = false := by
          intro s' hs'
          cases o <;> simp [step, hmem, hact] at hs' <;> subst hs' <;> simp [hact]
        obtain ⟨ho, hni, hac, hmo, hpe⟩ := hstep _ rfl
        refine ⟨?_, ?_, ?_, ?_, ?_⟩
        · intro p hp'
          rw [ho] at hp'
          rw [hni]
          exact hb p (List.mem_of_mem_filter hp')
        · show (outIds _).Nodup
          rw [outIds, ho, outIds_filter_ne]
          exact hn.filter _
        · intro i hi
          rw [hac] at hi
          rw [hni]
          exact ha i hi
        · intro hf
          rw [hmo] at hf
          rw [hac]
          exact hu hf
        · intro _
          rw [hpe, activeOutstanding]
          rw [hac, hact]
          simp only [outIds, ho, outIds_filter_ne]
          simp [outIds]
      · -- settling a superseded / non-active cycle: only bookkeeping changes
        have hstep : ∀ s', step s (Event.settle id o) = s' →
            s'.outstanding = s.outstanding.filter (fun p => p.1 != id) ∧
            s'.nextId = s.nextId ∧ s'.active = s.active ∧ s'.mounted = s.mounted ∧
            s'.pending = s.pending ∧ s'.result = s.result ∧ s'.value = s.value := by
          intro s' hs'
          cases o <;> simp [step, hmem, hact] at hs' <;> subst hs' <;> simp
        obtain ⟨ho, hni, hac, hmo, hpe, _, _⟩ := hstep _ rfl
        refine ⟨?_, ?_, ?_, ?_, ?_⟩
        · intro p hp'
          rw [ho] at hp'
          rw [hni]
          exact hb p (List.mem_of_mem_filter hp')
        · show (outIds _).Nodup
          rw [outIds, ho, outIds_filter_ne]
          exact hn.filter _
        · intro i hi
          rw [hac] at hi
          rw [hni]
          exact ha i hi
        · intro hf
          rw [hmo] at hf
          rw [hac]
          exact hu hf
        · intro hf
          rw [hpe, hmo] at *
          rw [hp (by rw [hmo] at hf; exact hf)]
          rw [activeOutstanding, activeOutstanding, hac]
          cases hA : s.active with
          | none => rfl
          | some j =>
            have hj : j ≠ id := by
              intro hji; exact hact (by rw [hA, hji])
            simp only [outIds, ho, outIds_filter_ne]
            simp [outIds, List.mem_filter, hj]
    · simpa [step, hmem] using ⟨hb, hn, ha, hu, hp⟩

lemma inv_run (s : HookState) (es : List Event) (h : Inv s) : Inv (run s es) := by
  induction es generalizing s with
  | nil => exact h
  | cons e es ih => exact ih _ (inv_step s e h)

lemma settle_nonactive (s : HookState) (id : Nat) (o : Outcome)
    (hact : s.active ≠ some id) :
    (step s (Event.settle id o)).result = s.result ∧
    (step s (Event.settle id o)).pending = s.pending ∧
    (step s (Event.settle id o)).value = s.value := by
  by_cases hmem : id ∈ outIds s
  · cases o <;> simp [step, hmem, hact]
  · simp [step, hmem]

lemma step_mounted (s : HookState) (e : Event) (he : e ≠ Event.unmount) :
    (step s e).mounted = s.mounted := by
  cases e with
  | setValue v =>
    by_cases hm : s.mounted
    · by_cases hv : v = s.value <;> simp [step, hm, hv, startCycle]
    · simp [step, hm]
  | settle id o =>
    by_cases hmem : id ∈ outIds s
    · by_cases hact : s.active = some id
      · cases o <;> simp [step, hmem, hact]
      · simp [step, hmem, hact]
    · simp [step, hmem]
  | unmount => exact absurd rfl he

lemma mounted_run (s : HookState) (es : List Event) (hm : s.mounted = true)
    (h : Event.unmount ∉ es) : (run s es).mounted = true := by
  induction es generalizing s with
  | nil => exact hm
  | cons e es ih =>
    rw [run, List.foldl_cons]
    have he : e ≠ Event.unmount := fun hc => h (by simp [hc])
    exact ih (step s e) (by rw [step_mounted s e he]; exact hm)
      (fun hc => h (List.mem_cons_of_mem _ hc))

lemma step_dead (s : HookState) (e : Event) (ha : s.active = none)
    (hm : s.mounted = false) :
    (step s e).active = none ∧ (step s e).mounted = false := by
  cases e with
  | setValue v => simp [step, hm, ha]
  | settle id o =>
    have hact : s.active ≠ some id := by simp [ha]
    by_cases hmem : id ∈ outIds s
    · simp [step, hmem, hact, ha, hm]
    · simp [step, hmem, ha, hm]
  | unmount => simp [step]

lemma dead_run (s : HookState) (es : List Event) (ha : s.active = none)
    (hm : s.mounted = false) :
    (run s es).active = none ∧ (run s es).mounted = false := by
  induction es generalizing s with
  | nil => exact ⟨ha, hm⟩
  | cons e es ih =>
    rw [run, List.foldl_cons]
    obtain ⟨h1, h2⟩ := step_dead s e ha hm
    exact ih _ h1 h2

lemma value_after_setValue (s : HookState) (v : String) (h : s.mounted = true) :
    (step s (Event.setValue v)).value = v := by
  by_cases hv : v = s.value <;> simp [step, h, hv, startCycle]

lemma string_ne_empty_of_length_pos (t : String) (h : t.length > 0) : t ≠ "" := by
  intro he
  rw [he] at h
  simp at h

lemma formStep_items_nonempty (s : FormState) (e : FormEvent)
    (h : ∀ item ∈ s.items, item.name ≠ "" ∧ item.location ≠ "") :
    ∀ item ∈ (formStep s e).items, item.name ≠ "" ∧ item.location ≠ "" := by
  cases e with
  | nameEvent e => simpa [formStep] using h
  | locationSelect ov => simpa [formStep, handleLocationSelect] using h
  | clearClick => simpa [formStep, handleClearClick] using h
  | addClick =>
    by_cases hc : canAdd s = true
    · intro item hitem
      simp only [formStep, handleAddClick, hc, if_true, handleClearClick,
        List.mem_append, List.mem_singleton] at hitem
      rcases hitem with hitem | hitem
      · exact h item hitem
      · subst hitem
        simp only [canAdd, Bool.and_eq_true, decide_eq_true_eq] at hc
        exact ⟨string_ne_empty_of_length_pos _ hc.1.2,
               string_ne_empty_of_length_pos _ hc.2⟩
    · simpa [formStep, handleAddClick, hc] using h

/-- C1: after any event sequence from mount, settling a cycle that is not the
most recently started one (its id is not the last id handed out) never changes
`result` (nor `pending`): only the most recently started cycle's result may
replace `result`, whatever the settlement order of the promises. -/
theorem superseded_cycle_never_commits (v0 : String) (es : List Event)
    (id : Nat) (o : Outcome)
    (h : id + 1 ≠ (run (mountState v0) es).nextId) :
    (step (run (mountState v0) es) (Event.settle id o)).result
        = (run (mountState v0) es).result ∧
    (step (run (mountState v0) es) (Event.settle id o)).pending
        = (run (mountState v0) es).pending := by
  have hinv := inv_run _ es (inv_mountState v0)
  have hact : (run (mountState v0) es).active ≠ some id :=
    fun hc => h (hinv.2.2.1 id hc)
  obtain ⟨h1, h2, _⟩ := settle_nonactive _ id o hact
  exact ⟨h1, h2⟩

theorem superseded_cycle_never_commits_witness :
    0 + 1 ≠ (run (mountState "") [Event.setValue "a"]).nextId ∧
    ((step (run (mountState "") [Event.setValue "a"])
        (Event.settle 0 (Outcome.resolve ⟨false, "taken"⟩))).result
      = (run (mountState "") [Event.setValue "a"]).result ∧
    (step (run (mountState "") [Event.setValue "a"])
        (Event.settle 0 (Outcome.resolve ⟨false, "taken"⟩))).pending
      = (run (mountState "") [Event.setValue "a"]).pending) :=
  ⟨by decide,
   superseded_cycle_never_commits "" [Event.setValue "a"] 0
     (Outcome.resolve ⟨false, "taken"⟩) (by decide)⟩

/-- C2: along any event sequence without unmount, `pending` is true exactly
while the most recently started cycle is still outstanding — it returns to
false exactly when that cycle settles — and the settlement of a superseded
(non-active) cycle never changes `pending`. -/
theorem pending_tracks_latest_cycle (v0 : String) (es : List Event)
    (h : Event.unmount ∉ es) :
    (run (mountState v0) es).pending = activeOutstanding (run (mountState v0) es) ∧
    (∀ (id : Nat) (o : Outcome), (run (mountState v0) es).active ≠ some id →
      (step (run (mountState v0) es) (Event.settle id o)).pending
        = (run (mountState v0) es).pending) := by
  constructor
  · exact (inv_run _ es (inv_mountState v0)).2.2.2.2
      (mounted_run _ es rfl h)
  · intro id o hact
    exact (settle_nonactive _ id o hact).2.1

theorem pending_tracks_latest_cycle_witness :
    Event.unmount ∉ [Event.settle 0 (Outcome.resolve ⟨true, ""⟩)] ∧
    ((run (mountState "") [Event.settle 0 (Outcome.resolve ⟨true, ""⟩)]).pending
      = activeOutstanding (run (mountState "") [Event.settle 0 (Outcome.resolve ⟨true, ""⟩)]) ∧
    (∀ (id : Nat) (o : Outcome),
      (run (mountState "") [Event.settle 0 (Outcome.resolve ⟨true, ""⟩)]).active ≠ some id →
      (step (run (mountState "") [Event.settle 0 (Outcome.resolve ⟨true, ""⟩)])
          (Event.settle id o)).pending
        = (run (mountState "") [Event.settle 0 (Outcome.resolve ⟨true, ""⟩)]).pending)) :=
  ⟨by decide, pending_tracks_latest_cycle "" [Event.settle 0 (Outcome.resolve ⟨true, ""⟩)]
    (by decide)⟩

/-- C3: once the component has been unmounted, the settlement (resolution or
rejection) of any cycle mutates no state: `value`, `result` and `pending` are
all left unchanged. -/
theorem no_write_after_unmount (v0 : String) (es1 es2 : List Event)
    (id : Nat) (o : Outcome) :
    (step (run (mountState v0) (es1 ++ Event.unmount :: es2)) (Event.settle id o)).value
        = (run (mountState v0) (es1 ++ Event.unmount :: es2)).value ∧
    (step (run (mountState v0) (es1 ++ Event.unmount :: es2)) (Event.settle id o)).result
        = (run (mountState v0) (es1 ++ Event.unmount :: es2)).result ∧
    (step (run (mountState v0) (es1 ++ Event.unmount :: es2)) (Event.settle id o)).pending
        = (run (mountState v0) (es1 ++ Event.unmount :: es2)).pending := by
  have hsplit : run (mountState v0) (es1 ++ Event.unmount :: es2)
      = run (step (run (mountState v0) es1) Event.unmount) es2 := by
    rw [run, List.foldl_append, List.foldl_cons]
    rfl
  have hdead : (run (mountState v0) (es1 ++ Event.unmount :: es2)).active = none := by
    rw [hsplit]
    exact (dead_run _ es2 (by simp [step]) (by simp [step])).1
  have hact : (run (mountState v0) (es1 ++ Event.unmount :: es2)).active ≠ some id := by
    simp [hdead]
  obtain ⟨h1, h2, h3⟩ := settle_nonactive _ id o hact
  exact ⟨h3, h1, h2⟩

/-- C4: when the still-active cycle's validation rejects, `result` is replaced
by exactly `EXCEPTION_VALIDATION_RESULT` — invalid with the fixed generic
message — independently of the error payload (the error is swallowed, never
rethrown: `step` is total), and `pending` is cleared. -/
theorem rejection_commits_generic_error (s : HookState) (id : Nat) (err : String)
    (h1 : s.active = some id) (h2 : id ∈ outIds s) :
    (step s (Event.settle id (Outcome.reject err))).result = EXCEPTION_VALIDATION_RESULT ∧
    (step s (Event.settle id (Outcome.reject err))).result.isValid = false ∧
    (step s (Event.settle id (Outcome.reject err))).result.message
      = "An error occurred while validating. Try again later." ∧
    (step s (Event.settle id (Outcome.reject err))).pending = false := by
  simp [step, h2, h1, EXCEPTION_VALIDATION_RESULT]

theorem rejection_commits_generic_error_witness :
    (mountState "x").active = some 0 ∧ 0 ∈ outIds (mountState "x") ∧
    ((step (mountState "x") (Event.settle 0 (Outcome.reject "ECONNRESET"))).result
        = EXCEPTION_VALIDATION_RESULT ∧
     (step (mountState "x") (Event.settle 0 (Outcome.reject "ECONNRESET"))).result.isValid
        = false ∧
     (step (mountState "x") (Event.settle 0 (Outcome.reject "ECONNRESET"))).result.message
        = "An error occurred while validating. Try again later." ∧
     (step (mountState "x") (Event.settle 0 (Outcome.reject "ECONNRESET"))).pending = false) :=
  ⟨by decide, by decide,
   rejection_commits_generic_error (mountState "x") 0 "ECONNRESET" (by decide) (by decide)⟩

/-- C5: when the still-active cycle's validation resolves, `result` is
replaced by exactly the `ValidationResult` the validation function returned,
and `pending` is cleared; in particular resolving `{isValid:true, message:""}`
leaves `isValid = true` and `message = ""` (see the witness). -/
theorem resolution_commits_returned_result (s : HookState) (id : Nat)
    (r : ValidationResult) (h1 : s.active = some id) (h2 : id ∈ outIds s) :
    (step s (Event.settle id (Outcome.resolve r))).result = r ∧
    (step s (Event.settle id (Outcome.resolve r))).pending = false := by
  simp [step, h2, h1]

theorem resolution_commits_returned_result_witness :
    (mountState "x").active = some 0 ∧ 0 ∈ outIds (mountState "x") ∧
    ((step (mountState "x") (Event.settle 0 (Outcome.resolve ⟨true, ""⟩))).result
        = (⟨true, ""⟩ : ValidationResult) ∧
     (step (mountState "x") (Event.settle 0 (Outcome.resolve ⟨true, ""⟩))).pending = false) :=
  ⟨by decide, by decide,
   resolution_commits_returned_result (mountState "x") 0 ⟨true, ""⟩ (by decide) (by decide)⟩

/-- C6: setting a value (via `initValue` or `handleChange`, both of which call
the same state setter) updates the exposed `value` synchronously — reading
`value` right after the set, before any settlement, yields the value just
set. -/
theorem set_value_synchronous (s : HookState) (v : String) (h : s.mounted = true) :
    (step s (Event.setValue v)).value = v :=
  value_after_setValue s v h

theorem set_value_synchronous_witness :
    (mountState "").mounted = true ∧
    (step (mountState "") (Event.setValue "seed")).value = "seed" :=
  ⟨rfl, set_value_synchronous (mountState "") "seed" rfl⟩

/-- C7 counterexample: after mounting on `""` and setting `"a"`, a second
`setValue "a"` is a complete no-op — the effect's dependency array
`[value, validateAsync]` is unchanged, so no second validation cycle starts:
the two identical sets started one cycle in total (`nextId` went from 1 to 2,
not to 3). -/
theorem identical_reset_starts_no_cycle :
    step (run (mountState "") [Event.setValue "a"]) (Event.setValue "a")
      = run (mountState "") [Event.setValue "a"] ∧
    (run (mountState "") [Event.setValue "a", Event.setValue "a"]).nextId = 2 :=
  ⟨by decide, by decide⟩

/-- C7 amended: calling `setValueFromUser v` twice in a row with the same `v`
triggers at most one validation cycle: the first call starts exactly one cycle
when `v` differs from the current value, and the second identical call is
deduplicated by the effect's dependency comparison and starts none (it is a
no-op); any cycle actually started is subject to the supersede rule. -/
theorem identical_reset_deduplicated (s : HookState) (v : String)
    (h1 : s.mounted = true) (h2 : v ≠ s.value) :
    (step s (Event.setValue v)).nextId = s.nextId + 1 ∧
    step (step s (Event.setValue v)) (Event.setValue v) = step s (Event.setValue v) := by
  have hs : step s (Event.setValue v) = startCycle { s with value := v } := by
    simp [step, h1, h2]
  constructor
  · rw [hs]; rfl
  · rw [hs]
    simp [step, startCycle]

theorem identical_reset_deduplicated_witness :
    (mountState "").mounted = true ∧ "a" ≠ (mountState "").value ∧
    ((step (mountState "") (Event.setValue "a")).nextId = (mountState "").nextId + 1 ∧
     step (step (mountState "") (Event.setValue "a")) (Event.setValue "a")
        = step (mountState "") (Event.setValue "a")) :=
  ⟨rfl, by decide, identical_reset_deduplicated (mountState "") "a" rfl (by decide)⟩

/-- C8: the state created by the `useState` initializers at widget mount,
before any mutator runs, is exactly the supplied initial value with the valid
empty-message result and no pending validation. -/
theorem initial_field_state (v : String) :
    (initState v).value = v ∧
    (initState v).result = INITIAL_VALIDATION_RESULT ∧
    INITIAL_VALIDATION_RESULT = { isValid := true, message := "" } ∧
    (initState v).pending = false :=
  ⟨rfl, rfl, rfl, rfl⟩

/-- C9: along every event sequence from the `Form`'s mount state, every row of
the `items` table has a non-empty name and a non-empty location — `addClick`
appends only under the `canAdd` guard, and no other event ever changes
`items`. -/
theorem table_rows_nonempty (es : List FormEvent) :
    (∀ item ∈ (formRun initFormState es).items, item.name ≠ "" ∧ item.location ≠ "") ∧
    (∀ (s : FormState) (e : FormEvent), e ≠ FormEvent.addClick →
      (formStep s e).items = s.items) := by
  constructor
  · have hstrong : ∀ (s : FormState),
        (∀ item ∈ s.items, item.name ≠ "" ∧ item.location ≠ "") →
        ∀ item ∈ (formRun s es).items, item.name ≠ "" ∧ item.location ≠ "" := by
      induction es with
      | nil => exact fun s h => h
      | cons e es ih =>
        intro s h
        rw [formRun, List.foldl_cons]
        exact ih _ (formStep_items_nonempty s e h)
    exact hstrong initFormState (by simp [initFormState])
  · intro s e he
    cases e with
    | nameEvent e => rfl
    | locationSelect ov => rfl
    | clearClick => rfl
    | addClick => exact absurd rfl he

theorem table_rows_nonempty_witness :
    (FormEvent.clearClick ≠ FormEvent.addClick) ∧
    (formStep initFormState FormEvent.clearClick).items = initFormState.items :=
  ⟨by decide, (table_rows_nonempty []).2 initFormState FormEvent.clearClick (by decide)⟩

/-- C10: when `canAdd` holds, `handleAddClick` appends exactly one row
`{name := current name value, location := current location}` at the end of
`items`, leaving the earlier rows unchanged and in order, and then resets the
name value and the location selection to `""`; when `canAdd` fails it leaves
`items`, name value and location unchanged. -/
theorem add_click_appends_and_clears (s : FormState)
    (hm : s.nameValidation.mounted = true) :
    (canAdd s = true →
      (handleAddClick s).items
          = s.items ++ [{ name := s.nameValidation.value, location := s.location }] ∧
      (handleAddClick s).nameValidation.value = "" ∧
      (handleAddClick s).location = "") ∧
    (canAdd s = false →
      (handleAddClick s).items = s.items ∧
      (handleAddClick s).nameValidation.value = s.nameValidation.value ∧
      (handleAddClick s).location = s.location) := by
  constructor
  · intro hc
    refine ⟨?_, ?_, ?_⟩
    · simp [handleAddClick, hc, handleClearClick]
    · simp only [handleAddClick, hc, if_true, handleClearClick]
      exact value_after_setValue _ "" hm
    · simp [handleAddClick, hc, handleClearClick]
  · intro hc
    simp [handleAddClick, hc]

theorem add_click_appends_and_clears_witness :
    (⟨mountState "n", "L", []⟩ : FormState).nameValidation.mounted = true ∧
    canAdd ⟨mountState "n", "L", []⟩ = true ∧
    ((handleAddClick ⟨mountState "n", "L", []⟩).items
        = [] ++ [{ name := (mountState "n").value, location := "L" }] ∧
     (handleAddClick ⟨mountState "n", "L", []⟩).nameValidation.value = "" ∧
     (handleAddClick ⟨mountState "n", "L", []⟩).location = "") :=
  ⟨rfl, by decide,
   (add_click_appends_and_clears ⟨mountState "n", "L", []⟩ rfl).1 (by decide)⟩

end AsyncValidation
